import Mathlib

/-!
Shallow embedding of the minuet-web static-content server (src/index.ts).

Modelling conventions:
  * JavaScript objects used as string-keyed dictionaries (mimes, headers,
    buffers, rootDir maps) are association lists in insertion order;
    assignment updates an existing key in place and appends a fresh key,
    matching the key-enumeration order of JS objects.
  * Node Buffers are modelled as Lean Strings; a file's byte size is the
    string length.  A Buffer is always truthy in JS, so the truthiness
    test on a dictionary lookup is (lookup).isSome.
  * The filesystem is a finite map from path to regular-file content plus
    a set of directory paths (for existsSync / statSync().isFile()), and,
    for the recursive buffer scan, a tree of directory listings.
  * Methods that mutate the MinuetWeb instance are state-passing
    functions; the one uncaught exception reachable from listen (calling
    toString() on an absent listNavigator template) is modelled by an
    Option result.
-/

/-- Fuel-driven core of string replacement (structural recursion on the fuel
so that the kernel can evaluate it); with fuel ≥ the list's length it replaces
each non-overlapping occurrence of a non-empty pattern, scanning left to
right — the semantics of JS s.split(pat).join(rep). -/
def replaceCharsFuel (pat rep : List Char) : Nat → List Char → List Char
  | 0, l => l
  | _ + 1, [] => []
  | n + 1, c :: rest =>
      if pat ≠ [] ∧ pat.isPrefixOf (c :: rest)
      then rep ++ replaceCharsFuel pat rep n (rest.drop (pat.length - 1))
      else c :: replaceCharsFuel pat rep n rest

/-- Replace each non-overlapping occurrence of pat, scanning left to right. -/
def replaceChars (pat rep l : List Char) : List Char :=
  replaceCharsFuel pat rep l.length l

/-- Fuel-driven core of string splitting on a non-empty separator, with
JS String.prototype.split semantics. -/
def splitCharsFuel (sep : List Char) : Nat → List Char → List (List Char)
  | 0, l => [l]
  | _ + 1, [] => [[]]
  | n + 1, c :: rest =>
      if sep ≠ [] ∧ sep.isPrefixOf (c :: rest)
      then [] :: splitCharsFuel sep n (rest.drop (sep.length - 1))
      else match splitCharsFuel sep n rest with
        | [] => [[c]]
        | piece :: pieces => (c :: piece) :: pieces

/-- Split on each non-overlapping occurrence of sep, left to right. -/
def splitChars (sep l : List Char) : List (List Char) :=
  splitCharsFuel sep l.length l

/-- String wrapper for replaceChars. -/
def jsReplaceStr (s pat rep : String) : String :=
  ⟨replaceChars pat.data rep.data s.data⟩

/-- String wrapper for splitChars. -/
def strSplitOn (s sep : String) : List String :=
  (splitChars sep.data s.data).map String.mk

/-- s.substring(n): drop the first n characters. -/
def strDrop (s : String) (n : Nat) : String := ⟨s.data.drop n⟩

/-- s.substring(0, s.length - n): drop the last n characters. -/
def strDropRight (s : String) (n : Nat) : String :=
  ⟨s.data.take (s.data.length - n)⟩

/-- s.indexOf(t) === 0: t is a prefix of s. -/
def strIsPre (t s : String) : Bool := t.data.isPrefixOf s.data

/-- The last character of s is the character c (false on the empty string,
like the JS comparison s[s.length - 1] == c on undefined). -/
def strEndsWithChar (s : String) (c : Char) : Bool :=
  match s.data.getLast? with
  | none => false
  | some d => d = c

/-- Number of characters of s. -/
def strLen (s : String) : Nat := s.data.length

/-- String concatenation of a list with a separator between elements. -/
def strIntercalate (sep : String) : List String → String
  | [] => ""
  | [x] => x
  | x :: xs => x ++ sep ++ strIntercalate sep xs

/-- Concatenation of a list of strings. -/
def strConcat : List String → String
  | [] => ""
  | x :: xs => x ++ strConcat xs

/-- Association-list lookup: first binding wins, as in JS property access. -/
def alookup {α : Type} : List (String × α) → String → Option α
  | [], _ => none
  | (k, v) :: rest, key => if k = key then some v else alookup rest key

/-- Association-list assignment with JS object semantics: an existing key is
updated in place (keeping its position), a fresh key is appended. -/
def ainsert {α : Type} : List (String × α) → String → α → List (String × α)
  | [], key, v => [(key, v)]
  | (k, w) :: rest, key, v =>
      if k = key then (k, v) :: rest else (k, w) :: ainsert rest key v

/-- JS s.split(sep).join(rep): replace each non-overlapping occurrence,
scanning left to right.  Used for the "//" → "/" collapsing in the source. -/
def jsReplace (s pat rep : String) : String := jsReplaceStr s pat rep

/-- JS s.split("?")[0]: the part of the string before the first "?". -/
def splitQuery (s : String) : String := (strSplitOn s "?").headD ""

/-- Node path.posix.dirname. -/
def pathDirname (p : String) : String :=
  if p = "" then "." else
  let comps := ((strSplitOn p "/").reverse.dropWhile (fun c => c = "")).reverse
  match comps with
  | [] => "/"
  | [_] => if strIsPre "/" p then "/" else "."
  | cs =>
      let d := strIntercalate "/" cs.dropLast
      if d = "" then "/" else d

/-- Node path.posix.basename. -/
def pathBasename (p : String) : String :=
  match (strSplitOn p "/").reverse.dropWhile (fun c => c = "") with
  | [] => ""
  | c :: _ => c

/-- Node path.extname: the extension of the last path component including the
dot; empty when there is no dot or the only dot leads the component. -/
def pathExtname (p : String) : String :=
  let b := (strSplitOn p "/").getLastD ""
  let parts := strSplitOn b "."
  if parts.length ≤ 1 then ""
  else if parts.length = 2 ∧ parts.headD "" = "" then ""
  else "." ++ parts.getLastD ""

/-- DefaultMimes table of src/index.ts, in declaration order. -/
def DefaultMimes : List (String × String) :=
  [("jpg", "image/jpeg"), ("png", "image/png"), ("gif", "image/jig"),
   ("tif", "image/tiff"), ("tiff", "image/tiff"), ("svg", "image/svg+xml"),
   ("ico", "image/vnd.microsoft.icon"), ("mp3", "audio/mp3"),
   ("aac", "audio/aac"), ("txt", "text/plain"), ("css", "text/css"),
   ("js", "text/javascript"), ("html", "text/html"), ("htm", "text/html"),
   ("xml", "text/xml"), ("woff", "font/woff"), ("woff2", "font/woff2"),
   ("ttf", "font/ttf"), ("zip", "application/zip"), ("bz", "application/x-bzip"),
   ("gz", "application/gzip"), ("7z", "application/x-7z-compressed"),
   ("csv", "text/csv")]

/-- The two reserved sentinel keys of enum MinuetWebBufferName. -/
def bufferNameNotFound : String := "#notfound"

/-- Sentinel key for the directory-listing template. -/
def bufferNameListNavigator : String := "#listNavigator"

/-- The notFound option: boolean policy or path of a 404 page. -/
inductive NotFoundSetting where
  | flag (b : Bool)
  | page (p : String)
deriving DecidableEq, Repr

/-- The rootDir option: a bare directory string or an ordered map from url
mount points to directories. -/
inductive RootDirSetting where
  | single (dir : String)
  | mounts (m : List (String × String))
deriving DecidableEq, Repr

/-- Normalised mount list: a bare string becomes the single mount under "/". -/
def normRoot : RootDirSetting → List (String × String)
  | .single d => [("/", d)]
  | .mounts m => m

/-- The mutable fields of the MinuetWeb class that the claims exercise
(the injected logger is an external no-op collaborator and is omitted). -/
structure MW where
  url : String := "/"
  rootDir : RootDirSetting := .single "htdocs"
  mimes : List (String × String) := DefaultMimes
  headers : List (String × String) := []
  buffering : Bool := true
  bufferingMaxSize : Nat := 300000
  directReading : Bool := false
  notFound : NotFoundSetting := .flag false
  directoryIndexs : List String := []
  listNavigator : Bool := false
  buffers : List (String × String) := []
deriving DecidableEq, Repr

/-- The observable effects applied to the http.ServerResponse: statusCode is
none while untouched (the transport then answers with its default 200). -/
structure Res where
  statusCode : Option Nat := none
  headersSet : List (String × String) := []
  writes : List String := []
  ended : Bool := false
deriving DecidableEq, Repr

/-- res.write(chunk). -/
def Res.write (r : Res) (c : String) : Res := { r with writes := r.writes ++ [c] }

/-- res.end(). -/
def Res.endRes (r : Res) : Res := { r with ended := true }

/-- res.statusCode = n. -/
def Res.setStatus (r : Res) (n : Nat) : Res := { r with statusCode := some n }

/-- res.setHeader(name, value). -/
def Res.setHead (r : Res) (k v : String) : Res :=
  { r with headersSet := ainsert r.headersSet k v }

/-- The filesystem as seen through existsSync / statSync().isFile() /
readFileSync: a map of regular files plus the set of directory paths. -/
structure FS where
  files : List (String × String) := []
  dirs : List String := []
deriving DecidableEq, Repr

/-- fs.existsSync. -/
def FS.existsSync (f : FS) (p : String) : Bool :=
  (alookup f.files p).isSome || f.dirs.any (fun d => d = p)

/-- fs.statSync(p).isFile() for an existing path. -/
def FS.isFile (f : FS) (p : String) : Bool := (alookup f.files p).isSome

/-- fs.readFileSync, with none for the thrown error on a missing file. -/
def FS.readOpt (f : FS) (p : String) : Option String := alookup f.files p

/-- The `typeof this.rootDir == "string"` normalisation the source performs
in addBuffer, readFile and getUrl before iterating mounts. -/
def MW.normalizeRoot (st : MW) : MW :=
  { st with rootDir := .mounts (normRoot st.rootDir) }

/-- The state with its BufferStore replaced. -/
def MW.withBuffers (st : MW) (b : List (String × String)) : MW :=
  { st with buffers := b }

/-- getMime: mime looked up by the target's extension without its dot. -/
def MW.getMime (st : MW) (target : String) : Option String :=
  alookup st.mimes (strDrop (pathExtname target) 1)

/-- The test of hasMine as a function of the mime table: the target has a
non-empty extension present in the table.  A mime registered as the empty
string is falsy in JS and also rejected. -/
def hasMineTable (mimes : List (String × String)) (target : String) : Bool :=
  let ext := strDrop (pathExtname target) 1
  if ext = "" then false
  else match alookup mimes ext with
    | none => false
    | some m => if m = "" then false else true

/-- hasMine (sic): the file name has a non-empty extension present in mimes. -/
def MW.hasMine (st : MW) (target : String) : Bool :=
  hasMineTable st.mimes target

/-- setHeader: copy each configured header onto the response, in key order. -/
def MW.setHeader (st : MW) (r : Res) : Res :=
  st.headers.foldl (fun r kv => r.setHead kv.1 kv.2) r

/-- The fileName computed by addBuffer's mount loop: the last mount whose
directory is a string prefix of filePath yields
(urlPrefix == "/" ? "" : urlPrefix) + filePath minus the directory, with
"//" collapsed to "/"; none when no mount matches. -/
def addBufferKey (mountList : List (String × String)) (filePath : String) :
    Option String :=
  mountList.foldl
    (fun acc m =>
      if strIsPre m.2 filePath then
        let url2 := if m.1 = "/" then "" else m.1
        some (jsReplace (url2 ++ strDrop filePath (strLen m.2)) "//" "/")
      else acc)
    none

/-- In JS, `obj[undefined] = v` stores under the property name "undefined":
the key addBuffer actually writes when its loop never matched. -/
def keyOrUndefined : Option String → String
  | some k => k
  | none => "undefined"

/-- addBuffer: normalise rootDir, compute the URL key of the file path and
store the content under it (under "undefined" when no mount matched). -/
def MW.addBuffer (st : MW) (filePath content : String) : MW :=
  let st := st.normalizeRoot
  let key := keyOrUndefined (addBufferKey (normRoot st.rootDir) filePath)
  { st with buffers := ainsert st.buffers key content }

/-- The direct candidate path a mount contributes in readFile's disk loop:
rootDir + "/" + targetPath minus the first urlPrefix-length characters (minus
also the base-url length first when the base url is not "/"), then "//"
collapsed to "/". -/
def directPath (baseUrl burl rd targetPath : String) : String :=
  if baseUrl = "/" then jsReplace (rd ++ "/" ++ strDrop targetPath (strLen burl)) "//" "/"
  else jsReplace (rd ++ "/" ++ strDrop (strDrop targetPath (strLen baseUrl)) (strLen burl)) "//" "/"

/-- The index-file candidate path for one mount and one directory index. -/
def indexPath (baseUrl burl rd targetPath idx : String) : String :=
  if baseUrl = "/" then
    jsReplace (rd ++ "/" ++ strDrop targetPath (strLen burl) ++ "/" ++ idx) "//" "/"
  else
    jsReplace (rd ++ "/" ++ strDrop (strDrop targetPath (strLen baseUrl)) (strLen burl) ++ "/" ++ idx) "//" "/"

/-- First directory-index candidate of a mount that exists as a regular file
(readFile's inner loop: its break leaves only the inner loop). -/
def firstIdxFile (f : FS) (baseUrl burl rd targetPath : String) :
    List String → Option String
  | [] => none
  | idx :: rest =>
      let p := indexPath baseUrl burl rd targetPath idx
      if f.existsSync p then
        if f.isFile p then some p
        else firstIdxFile f baseUrl burl rd targetPath rest
      else firstIdxFile f baseUrl burl rd targetPath rest

/-- readFile's mount loop.  A direct regular-file hit breaks the outer loop;
an index hit only overwrites the running decision and iteration continues
with the next mount. -/
def rfLoop (f : FS) (baseUrl : String) (idxs : List String)
    (targetPath : String) : List (String × String) → Option String → Option String
  | [], dec => dec
  | (burl, rd) :: rest, dec =>
      let p := directPath baseUrl burl rd targetPath
      if f.existsSync p ∧ f.isFile p then some p
      else
        match firstIdxFile f baseUrl burl rd targetPath idxs with
        | some q => rfLoop f baseUrl idxs targetPath rest (some q)
        | none => rfLoop f baseUrl idxs targetPath rest dec

/-- readFile: buffer hit first (the stored Buffer is always truthy), else the
disk loop; returns none both for the `return;` on no decision and for a
read error on the decided path (listen's try/catch routes either to error). -/
def MW.readFile (st : MW) (f : FS) (targetPath : String) :
    Option (String × Option String) × MW :=
  if st.buffering ∧ (alookup st.buffers targetPath).isSome then
    match alookup st.buffers targetPath with
    | some content => (some (content, st.getMime targetPath), st)
    | none => (none, st)
  else
    match rfLoop f st.normalizeRoot.url st.normalizeRoot.directoryIndexs targetPath
        (normRoot st.normalizeRoot.rootDir) none with
    | none => (none, st.normalizeRoot)
    | some dec =>
        match f.readOpt dec with
        | some content => (some (content, st.normalizeRoot.getMime dec), st.normalizeRoot)
        | none => (none, st.normalizeRoot)

/-- getUrl's disk-existence check for one candidate: some mount's
rootDir + "/" + candidate (duplicate slashes collapsed) exists — note the
candidate is not stripped of the mount's urlPrefix here. -/
def guExists (f : FS) (mountList : List (String × String)) (cand : String) : Bool :=
  mountList.any (fun m => f.existsSync (jsReplace (m.2 ++ "/" ++ cand) "//" "/"))

/-- getUrl's candidate loop: buffer hit returns the candidate; with
directReading (or without buffering) a disk-existence hit returns it, after
the rootDir normalisation that the disk branch performs. -/
def guLoop (st : MW) (f : FS) : List String → Option String × MW
  | [] => (none, st)
  | cand :: rest =>
      if st.buffering then
        if (alookup st.buffers cand).isSome then (some cand, st)
        else if ¬ st.directReading then guLoop st f rest
        else
          if guExists f (normRoot st.normalizeRoot.rootDir) cand
          then (some cand, st.normalizeRoot)
          else guLoop st.normalizeRoot f rest
      else
        if guExists f (normRoot st.normalizeRoot.rootDir) cand
        then (some cand, st.normalizeRoot)
        else guLoop st.normalizeRoot f rest

/-- getUrl: strip the query string and a trailing slash (except on "/"),
build one candidate per directory-index name, and run the candidate loop;
the fallback decision is the unmodified baseUrl argument. -/
def MW.getUrl (st : MW) (f : FS) (baseUrl : String) : String × MW :=
  let url := splitQuery baseUrl
  let url := if url ≠ "/" ∧ strEndsWithChar url '/' then strDropRight url 1 else url
  let urlList := st.directoryIndexs.map (fun idx => jsReplace (url ++ "/" ++ idx) "//" "/")
  match guLoop st f urlList with
  | (some d, st) => (d, st)
  | (none, st) => (baseUrl, st)

/-- getDirectories: buffered keys having url as a prefix with exactly one
further "/"-separated segment, in buffer insertion order (empty without
buffering: that branch of the source is unimplemented). -/
def MW.getDirectories (st : MW) (url : String) : List String :=
  if st.buffering then
    st.buffers.foldr
      (fun kv acc =>
        if strIsPre url kv.1 ∧ (strSplitOn (strDrop kv.1 (strLen url)) "/").length = 2
        then kv.1 :: acc else acc)
      []
  else []

/-- One row fragment of the directory listing. -/
def listRow (l : String) : String :=
  "<tr><td>-</td><td><a href=\"" ++ l ++ "\">" ++ pathBasename l ++ "</a></td></tr>"

/-- isDirectory: substitute the listing template and write it.  The clock is
an explicit argument (the source formats the current date); none models the
uncaught TypeError of calling toString() on an absent template sentinel.
Without buffering the method writes nothing and still returns true. -/
def MW.isDirectory (st : MW) (dateStr reqUrl : String) (r : Res) :
    Option (Bool × Res) :=
  let url := splitQuery reqUrl
  let url := if strEndsWithChar url '/' then strDropRight url 1 else url
  if st.buffering then
    match alookup st.buffers bufferNameListNavigator with
    | none => none
    | some tmpl =>
        let content := jsReplace tmpl "{url}" url
        let content := jsReplace content "{back}" (pathDirname url)
        let listStr := strConcat ((st.getDirectories url).map listRow)
        let content := jsReplace content "{lists}" listStr
        let content := jsReplace content "{comment}" ("Minuet Server | " ++ dateStr)
        some (true, ((r.write content).endRes))
  else some (true, r)

/-- error: the 404 path.  With a boolean policy: false returns false without
touching the response, true answers 404 with an empty body.  With a page
path: the page content comes from the sentinel buffer key (whose absence is
thrown) or from disk; on any failure the catch writes the literal "ERROR"
without setting a status code; either way the handler reports true. -/
def MW.error (st : MW) (f : FS) (r : Res) : Bool × Res :=
  match st.notFound with
  | .flag b =>
      if ¬ b then (false, r)
      else (true, ((r.setStatus 404).endRes))
  | .page p =>
      match (if st.buffering then alookup st.buffers bufferNameNotFound
             else f.readOpt p) with
      | some content => (true, ((((r.setStatus 404)).write content).endRes))
      | none => (true, ((r.write "ERROR").endRes))

/-- listen: resolve the URL; an empty decision goes to the directory
navigator or the error path; otherwise load the content, route load or mime
failures to the error path, and answer 200 writing the body after copying
the configured headers extended in place with the content-type. -/
def MW.listen (st : MW) (f : FS) (dateStr reqUrl : String) (r : Res) :
    Option (Bool × MW × Res) :=
  match st.getUrl f (splitQuery reqUrl) with
  | (u, st) =>
    if u = "" then
      if st.listNavigator then
        match st.isDirectory dateStr reqUrl r with
        | none => none
        | some (b, r) =>
            if b then some (true, st, r)
            else
              match st.error f r with
              | (ret, r) => some (ret, st, r)
      else
        match st.error f r with
        | (ret, r) => some (ret, st, r)
    else
      match st.readFile f u with
      | (none, st) =>
          match st.error f r with
          | (ret, r) => some (ret, st, r)
      | (some (content, mime), st) =>
          match mime with
          | none =>
              match st.error f r with
              | (ret, r) => some (ret, st, r)
          | some m =>
              if m = "" then
                match st.error f r with
                | (ret, r) => some (ret, st, r)
              else
                some (true, { st with headers := ainsert st.headers "content-type" m },
                  (((MW.setHeader { st with headers := ainsert st.headers "content-type" m }
                      (r.setStatus 200)).write content).endRes))

/-- A directory listing for the recursive buffer scan: entries in readdir
order, each either a regular file with its content or a subdirectory with
its own listing. -/
inductive FTree where
  | leaf
  | fileEntry (name content : String) (rest : FTree)
  | dirEntry (name : String) (sub : FTree) (rest : FTree)
deriving DecidableEq, Repr

/-- search: the recursive scan of updateBuffer.  A directory entry recurses;
a file entry is buffered when its name passes hasMine and its size does not
exceed bufferingMaxSize (sizes are modelled as string lengths). -/
def MW.search (st : MW) (targetPath url : String) : FTree → MW
  | .leaf => st
  | .fileEntry name content rest =>
      let st1 :=
        if ¬ st.hasMine name then st
        else if strLen content > st.bufferingMaxSize then st
        else st.addBuffer (targetPath ++ "/" ++ name) content
      MW.search st1 targetPath url rest
  | .dirEntry name sub rest =>
      let st1 := MW.search st (targetPath ++ "/" ++ name) url sub
      MW.search st1 targetPath url rest

/-- An untouched ServerResponse. -/
def res0 : Res := {}

/-- A listing template with all four placeholders. -/
def tmplC1 : String := "<html><body>{url}|{back}|{lists}|{comment}</body></html>"

/-- Scenario E state: listNavigator on, buffering on, no directory indexes,
BufferStore holding exactly the two children of /docs plus the template
sentinel that updateBuffer loads when listNavigator is enabled. -/
def stC1 : MW :=
  { url := "/", rootDir := .mounts [("/", "htdocs")], mimes := DefaultMimes,
    headers := [], buffering := true, bufferingMaxSize := 300000,
    directReading := false, notFound := .flag false, directoryIndexs := [],
    listNavigator := true,
    buffers := [("/docs/a.txt", "AAA"), ("/docs/b.txt", "BBB"),
                (bufferNameListNavigator, tmplC1)] }

/-- Scenario E filesystem: /docs exists as a directory with the two files
and no index file. -/
def fsC1 : FS :=
  { files := [("htdocs/docs/a.txt", "AAA"), ("htdocs/docs/b.txt", "BBB")],
    dirs := ["htdocs", "htdocs/docs"] }

/-- State for the unimplemented non-buffered directory-navigator branch:
buffering off, listNavigator on, notFound disabled. -/
def stC2 : MW :=
  { url := "/", rootDir := .mounts [("/", "htdocs")], mimes := DefaultMimes,
    headers := [], buffering := false, bufferingMaxSize := 300000,
    directReading := false, notFound := .flag false, directoryIndexs := [],
    listNavigator := true, buffers := [] }

/-- Empty filesystem. -/
def fsC2 : FS := {}

/-- Two mounts for the Content Loader order question: first mount matches
only through a directory index, second mount matches directly. -/
def stC3 : MW :=
  { url := "/", rootDir := .mounts [("/a", "dirA"), ("/b", "dirB")],
    mimes := DefaultMimes, headers := [], buffering := false,
    bufferingMaxSize := 300000, directReading := false,
    notFound := .flag false, directoryIndexs := ["index.html"],
    listNavigator := false, buffers := [] }

/-- dirA/x is a directory holding index.html; dirB/x is a regular file. -/
def fsC3 : FS :=
  { files := [("dirA/x/index.html", "AAA"), ("dirB/x", "BBB")],
    dirs := ["dirA", "dirA/x", "dirB"] }

/-- Single mount under the /a urlPrefix, buffering off, one index name. -/
def stC4 : MW :=
  { url := "/", rootDir := .mounts [("/a", "dirA")], mimes := DefaultMimes,
    headers := [], buffering := false, bufferingMaxSize := 300000,
    directReading := false, notFound := .flag false,
    directoryIndexs := ["index.html"], listNavigator := false, buffers := [] }

/-- The layout the claim describes: dirA/x/index.html on disk. -/
def fsC4 : FS :=
  { files := [("dirA/x/index.html", "IDX")], dirs := ["dirA", "dirA/x"] }

/-- The layout the code actually probes: dirA/a/x/index.html on disk. -/
def fsC4un : FS :=
  { files := [("dirA/a/x/index.html", "IDX")],
    dirs := ["dirA", "dirA/a", "dirA/a/x"] }

/-- Scenario D base state before the two addBuffer calls. -/
def stC5base : MW :=
  { url := "/", rootDir := .mounts [("/a", "dirA"), ("/b", "dirB")],
    mimes := DefaultMimes, headers := [], buffering := true,
    bufferingMaxSize := 300000, directReading := false,
    notFound := .flag false, directoryIndexs := [], listNavigator := false,
    buffers := [] }

/-- Scenario D buffered state: both files added via addBuffer. -/
def stC5buf (cA cB : String) : MW :=
  (stC5base.addBuffer "dirA/x.txt" cA).addBuffer "dirB/x.txt" cB

/-- Scenario D disk state: same configuration with buffering disabled. -/
def stC5disk : MW := { stC5base with buffering := false }

/-- Scenario D filesystem: x.txt in both mount directories. -/
def fsC5 (cA cB : String) : FS :=
  { files := [("dirA/x.txt", cA), ("dirB/x.txt", cB)], dirs := ["dirA", "dirB"] }

/-- A mounted configuration whose directory is unrelated to the added path. -/
def stC8 : MW :=
  { url := "/", rootDir := .mounts [("/", "htdocs")], mimes := DefaultMimes,
    headers := [], buffering := true, bufferingMaxSize := 300000,
    directReading := false, notFound := .flag false, directoryIndexs := [],
    listNavigator := false, buffers := [] }

/-- A 200-path state with empty configured headers. -/
def stC9 : MW :=
  { url := "/", rootDir := .mounts [("/", "htdocs")], mimes := DefaultMimes,
    headers := [], buffering := true, bufferingMaxSize := 300000,
    directReading := false, notFound := .flag false, directoryIndexs := [],
    listNavigator := false, buffers := [("/x.txt", "AAA")] }

/-- Filesystem backing stC9. -/
def fsC9 : FS := { files := [("htdocs/x.txt", "AAA")], dirs := ["htdocs"] }

/-- notFound configured as a page path whose content is unavailable:
buffering on with no sentinel entry. -/
def stC10 : MW :=
  { url := "/", rootDir := .mounts [("/", "htdocs")], mimes := DefaultMimes,
    headers := [], buffering := true, bufferingMaxSize := 300000,
    directReading := false, notFound := .page "404.html",
    directoryIndexs := [], listNavigator := false, buffers := [] }

/-- Filesystem without the 404 page. -/
def fsC10 : FS := { files := [], dirs := ["htdocs"] }

/-- Sequential JS-object assignment of a list of bindings, left to right
(a later binding with the same key overwrites an earlier one). -/
def ainsertList (b : List (String × String)) (es : List (String × String)) :
    List (String × String) :=
  es.foldl (fun b kv => ainsert b kv.1 kv.2) b

/-- The (key, content) bindings that search adds to the BufferStore, in
traversal order: the files whose name passes the mime test and whose size
does not exceed the cap, keyed as addBuffer keys them under the mounts M. -/
def collectFiles (mimes : List (String × String)) (maxSize : Nat)
    (M : List (String × String)) (targetPath : String) : FTree → List (String × String)
  | .leaf => []
  | .fileEntry name content rest =>
      (if hasMineTable mimes name ∧ ¬ strLen content > maxSize
       then [(keyOrUndefined (addBufferKey M (targetPath ++ "/" ++ name)), content)]
       else [])
      ++ collectFiles mimes maxSize M targetPath rest
  | .dirEntry name sub rest =>
      collectFiles mimes maxSize M (targetPath ++ "/" ++ name) sub
      ++ collectFiles mimes maxSize M targetPath rest

/-- Every regular file of a directory tree with its name, full path and
content, in traversal order. -/
def allFiles (targetPath : String) : FTree → List (String × String × String)
  | .leaf => []
  | .fileEntry name content rest =>
      (name, targetPath ++ "/" ++ name, content) :: allFiles targetPath rest
  | .dirEntry name sub rest =>
      allFiles (targetPath ++ "/" ++ name) sub ++ allFiles targetPath rest

/-- The first mount, in mount order, whose direct candidate path is an
existing regular file (the only way readFile's outer loop stops early). -/
def firstDirectDec (f : FS) (baseUrl targetPath : String) :
    List (String × String) → Option String
  | [] => none
  | (burl, rd) :: rest =>
      let p := directPath baseUrl burl rd targetPath
      if f.existsSync p ∧ f.isFile p then some p
      else firstDirectDec f baseUrl targetPath rest

/-- The first index-file match of the last mount having one: what the
decision variable holds after the full scan when no direct hit occurred. -/
def lastIdxDec (f : FS) (baseUrl : String) (idxs : List String)
    (targetPath : String) : List (String × String) → Option String
  | [] => none
  | (burl, rd) :: rest =>
      match lastIdxDec f baseUrl idxs targetPath rest with
      | some q => some q
      | none => firstIdxFile f baseUrl burl rd targetPath idxs

/-- Witness state for the round-trip claim. -/
def stW6 : MW :=
  { url := "/", rootDir := .mounts [("/", "htdocs")], mimes := DefaultMimes,
    headers := [], buffering := true, bufferingMaxSize := 300000,
    directReading := false, notFound := .flag false, directoryIndexs := [],
    listNavigator := false, buffers := [] }

/-- Witness filesystem for the round-trip claim. -/
def fsW6 : FS := {}

/-- Witness directory tree for the size-boundary claim: a single directory
with one file at exactly the configured maximum size. -/
def treeW7 : FTree := .fileEntry "a.txt" "1234567890" .leaf

/-- Witness state for the size-boundary claim, with a ten-byte cap. -/
def stW7 : MW :=
  { url := "/", rootDir := .mounts [("/", "htdocs")], mimes := DefaultMimes,
    headers := [], buffering := true, bufferingMaxSize := 10,
    directReading := false, notFound := .flag false, directoryIndexs := [],
    listNavigator := false, buffers := [] }

theorem alookup_ainsert_self {α : Type} (l : List (String × α)) (k : String) (v : α) :
    alookup (ainsert l k v) k = some v := by
  induction l with
  | nil => simp [ainsert, alookup]
  | cons kv rest ih =>
      obtain ⟨k0, v0⟩ := kv
      by_cases h : k0 = k
      · simp [ainsert, alookup, h]
      · simp [ainsert, alookup, h, ih]

theorem alookup_ainsert_ne {α : Type} (l : List (String × α)) (k k' : String) (v : α)
    (h : k' ≠ k) : alookup (ainsert l k v) k' = alookup l k' := by
  have h2 : ¬ k = k' := fun hh => h hh.symm
  induction l with
  | nil => simp [ainsert, alookup, h2]
  | cons kv rest ih =>
      obtain ⟨k0, v0⟩ := kv
      by_cases h0 : k0 = k
      · subst h0
        simp [ainsert, alookup, h2]
      · simp [ainsert, alookup, h0, ih]

theorem normalizeRoot_idem (st : MW) :
    (MW.normalizeRoot st).normalizeRoot = st.normalizeRoot := rfl

theorem guLoop_snd (f : FS) (l : List String) : ∀ st : MW,
    (guLoop st f l).2 = st ∨ (guLoop st f l).2 = st.normalizeRoot := by
  induction l with
  | nil => intro st; left; rfl
  | cons c rest ih =>
      intro st
      have ih1 := ih st
      have ih2 := ih st.normalizeRoot
      rw [normalizeRoot_idem] at ih2
      simp only [guLoop]
      by_cases hb : st.buffering = true <;>
      by_cases hhit : (alookup st.buffers c).isSome = true <;>
      by_cases hdr : st.directReading = true <;>
      by_cases hex : guExists f (normRoot st.normalizeRoot.rootDir) c = true <;>
      simp [hb, hhit, hdr, hex] <;> tauto

theorem getUrl_snd (st : MW) (f : FS) (u : String) :
    (MW.getUrl st f u).2 = st ∨ (MW.getUrl st f u).2 = st.normalizeRoot := by
  unfold MW.getUrl
  rcases hg : guLoop st f ((st.directoryIndexs).map
      (fun idx => jsReplace ((if splitQuery u ≠ "/" ∧ strEndsWithChar (splitQuery u) '/'
        then strDropRight (splitQuery u) 1 else splitQuery u) ++ "/" ++ idx) "//" "/")) with ⟨d, st1⟩
  have := guLoop_snd f ((st.directoryIndexs).map
      (fun idx => jsReplace ((if splitQuery u ≠ "/" ∧ strEndsWithChar (splitQuery u) '/'
        then strDropRight (splitQuery u) 1 else splitQuery u) ++ "/" ++ idx) "//" "/")) st
  rw [hg] at this
  cases d <;> simp only [hg] <;> exact this

theorem readFile_snd (st : MW) (f : FS) (t : String) :
    (MW.readFile st f t).2 = st ∨ (MW.readFile st f t).2 = st.normalizeRoot := by
  unfold MW.readFile
  by_cases hhit : st.buffering = true ∧ (alookup st.buffers t).isSome = true
  · rw [if_pos hhit]
    cases alookup st.buffers t <;> simp
  · rw [if_neg hhit]
    cases rfLoop f st.normalizeRoot.url st.normalizeRoot.directoryIndexs t
        (normRoot st.normalizeRoot.rootDir) none with
    | none => right; rfl
    | some dec => rcases hro : f.readOpt dec with _ | c <;> simp [hro]

theorem error_cases (st : MW) (f : FS) (r : Res) :
    (st.notFound = .flag false ∧ MW.error st f r = (false, r)) ∨
    ((MW.error st f r).1 = true ∧ (MW.error st f r).2.ended = true) := by
  rcases hnf : st.notFound with bb | p
  · cases bb
    · left; exact ⟨rfl, by simp [MW.error, hnf]⟩
    · right; constructor <;> simp [MW.error, hnf, Res.endRes, Res.setStatus]
  · right
    rcases hc : (if st.buffering = true then alookup st.buffers bufferNameNotFound
        else f.readOpt p) with _ | c <;>
      constructor <;>
      simp [MW.error, hnf, hc, Res.endRes, Res.write, Res.setStatus]

theorem isDirectory_cases (st : MW) (d req : String) (r : Res) :
    MW.isDirectory st d req r = none ∨
    (∃ c, MW.isDirectory st d req r = some (true, ((r.write c).endRes))) ∨
    (st.buffering = false ∧ MW.isDirectory st d req r = some (true, r)) := by
  unfold MW.isDirectory
  by_cases hb : st.buffering = true
  · simp only [hb, if_true]
    cases alookup st.buffers bufferNameListNavigator
    · left; rfl
    · right; left; exact ⟨_, rfl⟩
  · right; right
    refine ⟨by simpa using hb, by simp [hb]⟩

theorem normOrSelf_fields {st st1 : MW} (h : st1 = st ∨ st1 = st.normalizeRoot) :
    st1.url = st.url ∧ st1.mimes = st.mimes ∧ st1.headers = st.headers ∧
    st1.buffering = st.buffering ∧ st1.bufferingMaxSize = st.bufferingMaxSize ∧
    st1.directReading = st.directReading ∧ st1.notFound = st.notFound ∧
    st1.directoryIndexs = st.directoryIndexs ∧
    st1.listNavigator = st.listNavigator ∧ st1.buffers = st.buffers ∧
    (st1.rootDir = st.rootDir ∨ st1.rootDir = .mounts (normRoot st.rootDir)) := by
  rcases h with h | h <;> subst h <;> simp [MW.normalizeRoot]

theorem normOrSelf_trans {st st1 st2 : MW}
    (h1 : st1 = st ∨ st1 = st.normalizeRoot)
    (h2 : st2 = st1 ∨ st2 = st1.normalizeRoot) :
    st2 = st ∨ st2 = st.normalizeRoot := by
  rcases h1 with h1 | h1 <;> subst h1
  · exact h2
  · rcases h2 with h2 | h2 <;> rw [h2]
    · right; rfl
    · right; exact normalizeRoot_idem st

theorem error_arm_facts (stX : MW) (f : FS) (r : Res) (b : Bool) (st' : MW) (r' : Res)
    (h : (match MW.error stX f r with
          | (ret, r2) => some (ret, stX, (r2 : Res))) = some (b, st', r')) :
    st' = stX ∧
    (b = false → stX.notFound = .flag false ∧ r' = r) ∧
    (b = true → r'.ended = true) := by
  rcases herr : MW.error stX f r with ⟨ret, r2⟩
  rw [herr] at h
  simp only [Option.some.injEq, Prod.mk.injEq] at h
  obtain ⟨hb, hst, hr⟩ := h
  rcases error_cases stX f r with ⟨hnf, he⟩ | ⟨he1, he2⟩
  · rw [herr] at he
    simp only [Prod.mk.injEq] at he
    obtain ⟨hret, hr2⟩ := he
    refine ⟨hst.symm, fun _ => ⟨hnf, ?_⟩, fun hbt => ?_⟩
    · rw [← hr, hr2]
    · rw [← hb, hret] at hbt; cases hbt
  · rw [herr] at he1 he2
    have hret : ret = true := he1
    have hend : r2.ended = true := he2
    refine ⟨hst.symm, fun hbf => ?_, fun _ => ?_⟩
    · rw [hret] at hb; rw [← hb] at hbf; cases hbf
    · rw [← hr]; exact hend
theorem listen_shape (st : MW) (f : FS) (d req : String) (r : Res)
    (b : Bool) (st' : MW) (r' : Res)
    (h : MW.listen st f d req r = some (b, st', r')) :
    (st'.url = st.url ∧ st'.mimes = st.mimes ∧ st'.buffering = st.buffering ∧
     st'.bufferingMaxSize = st.bufferingMaxSize ∧
     st'.directReading = st.directReading ∧ st'.notFound = st.notFound ∧
     st'.directoryIndexs = st.directoryIndexs ∧
     st'.listNavigator = st.listNavigator ∧ st'.buffers = st.buffers) ∧
    (st'.rootDir = st.rootDir ∨ st'.rootDir = .mounts (normRoot st.rootDir)) ∧
    (st'.headers = st.headers ∨
      ∃ m, st'.headers = ainsert st.headers "content-type" m) ∧
    (b = false → st.notFound = .flag false ∧ r' = r) ∧
    (b = true → r'.ended = true ∨
      (r' = r ∧ st.listNavigator = true ∧ st.buffering = false ∧
        (MW.getUrl st f (splitQuery req)).1 = "")) := by
  unfold MW.listen at h
  rcases hg : MW.getUrl st f (splitQuery req) with ⟨u, st1⟩
  rw [hg] at h
  dsimp only at h
  have hst1 : st1 = st ∨ st1 = st.normalizeRoot := by
    have hs := getUrl_snd st f (splitQuery req)
    rw [hg] at hs
    exact hs
  obtain ⟨f1, f2, f3, f4, f5, f6, f7, f8, f9, f10, f11⟩ := normOrSelf_fields hst1
  by_cases hu : u = ""
  · rw [if_pos hu] at h
    by_cases hl : st1.listNavigator = true
    · rw [if_pos hl] at h
      rcases isDirectory_cases st1 d req r with hc | ⟨c, hc⟩ | ⟨hbf, hc⟩
      · rw [hc] at h; cases h
      · rw [hc] at h
        have h2 : some (true, st1, ((r.write c).endRes)) = some (b, st', r') := h
        simp only [Option.some.injEq, Prod.mk.injEq] at h2
        obtain ⟨hb1, hst, hr⟩ := h2
        subst hb1; subst hst; subst hr
        refine ⟨⟨f1, f2, f4, f5, f6, f7, f8, f9, f10⟩, f11, Or.inl f3, ?_, ?_⟩
        · intro hbf2; exact absurd hbf2 (by decide)
        · intro _; exact Or.inl rfl
      · rw [hc] at h
        have h2 : some (true, st1, r) = some (b, st', r') := h
        simp only [Option.some.injEq, Prod.mk.injEq] at h2
        obtain ⟨hb1, hst, hr⟩ := h2
        subst hb1; subst hst; subst hr
        refine ⟨⟨f1, f2, f4, f5, f6, f7, f8, f9, f10⟩, f11, Or.inl f3, ?_, ?_⟩
        · intro hbf2; exact absurd hbf2 (by decide)
        · intro _
          refine Or.inr ⟨rfl, ?_, ?_, ?_⟩
          · rw [← f9]; exact hl
          · rw [← f4]; exact hbf
          · exact hu
    · rw [if_neg hl] at h
      obtain ⟨hst, hfls, htr⟩ := error_arm_facts st1 f r b st' r' h
      subst hst
      refine ⟨⟨f1, f2, f4, f5, f6, f7, f8, f9, f10⟩, f11, Or.inl f3, ?_, ?_⟩
      · intro hbf
        obtain ⟨hnf1, hr⟩ := hfls hbf
        exact ⟨by rw [← f7]; exact hnf1, hr⟩
      · intro hbt; exact Or.inl (htr hbt)
  · rw [if_neg hu] at h
    rcases hrf : MW.readFile st1 f u with ⟨ro, st2⟩
    rw [hrf] at h
    have hst2 : st2 = st1 ∨ st2 = st1.normalizeRoot := by
      have hs := readFile_snd st1 f u
      rw [hrf] at hs
      exact hs
    have hch : st2 = st ∨ st2 = st.normalizeRoot := normOrSelf_trans hst1 hst2
    obtain ⟨g1, g2, g3, g4, g5, g6, g7, g8, g9, g10, g11⟩ := normOrSelf_fields hch
    cases ro with
    | none =>
        dsimp only at h
        obtain ⟨hst, hfls, htr⟩ := error_arm_facts st2 f r b st' r' h
        subst hst
        refine ⟨⟨g1, g2, g4, g5, g6, g7, g8, g9, g10⟩, g11, Or.inl g3, ?_, ?_⟩
        · intro hbf
          obtain ⟨hnf1, hr⟩ := hfls hbf
          exact ⟨by rw [← g7]; exact hnf1, hr⟩
        · intro hbt; exact Or.inl (htr hbt)
    | some rc =>
        rcases rc with ⟨content, mime⟩
        cases mime with
        | none =>
            dsimp only at h
            obtain ⟨hst, hfls, htr⟩ := error_arm_facts st2 f r b st' r' h
            subst hst
            refine ⟨⟨g1, g2, g4, g5, g6, g7, g8, g9, g10⟩, g11, Or.inl g3, ?_, ?_⟩
            · intro hbf
              obtain ⟨hnf1, hr⟩ := hfls hbf
              exact ⟨by rw [← g7]; exact hnf1, hr⟩
            · intro hbt; exact Or.inl (htr hbt)
        | some m =>
            dsimp only at h
            by_cases hm : m = ""
            · rw [if_pos hm] at h
              obtain ⟨hst, hfls, htr⟩ := error_arm_facts st2 f r b st' r' h
              subst hst
              refine ⟨⟨g1, g2, g4, g5, g6, g7, g8, g9, g10⟩, g11, Or.inl g3, ?_, ?_⟩
              · intro hbf
                obtain ⟨hnf1, hr⟩ := hfls hbf
                exact ⟨by rw [← g7]; exact hnf1, hr⟩
              · intro hbt; exact Or.inl (htr hbt)
            · rw [if_neg hm] at h
              simp only [Option.some.injEq, Prod.mk.injEq] at h
              obtain ⟨hb1, hst, hr⟩ := h
              subst hb1; subst hst; subst hr
              refine ⟨⟨g1, g2, g4, g5, g6, g7, g8, g9, g10⟩, g11, Or.inr ⟨m, ?_⟩, ?_, ?_⟩
              · show ainsert st2.headers "content-type" m
                    = ainsert st.headers "content-type" m
                rw [g3]
              · intro hbf2; exact absurd hbf2 (by decide)
              · intro _; exact Or.inl rfl

theorem addBuffer_mounts (st : MW) (M : List (String × String)) (p c : String)
    (hroot : st.rootDir = .mounts M) :
    MW.addBuffer st p c
      = MW.withBuffers st
          (ainsert st.buffers (keyOrUndefined (addBufferKey M p)) c) := by
  obtain ⟨u0, rd0, mi0, he0, bu0, bm0, dr0, nf0, di0, ln0, bf0⟩ := st
  cases hroot
  rfl

theorem search_buffers (t : FTree) : ∀ (st : MW) (M : List (String × String))
    (tp u : String), st.rootDir = .mounts M →
    MW.search st tp u t
      = MW.withBuffers st
          (ainsertList st.buffers
            (collectFiles st.mimes st.bufferingMaxSize M tp t)) := by
  induction t with
  | leaf => intro st M tp u hroot; rfl
  | fileEntry name content rest ih =>
      intro st M tp u hroot
      simp only [MW.search, collectFiles]
      by_cases hmine : MW.hasMine st name = true
      · by_cases hsize : strLen content > st.bufferingMaxSize
        · rw [if_neg (by simp [hmine]), if_pos hsize, ih st M tp u hroot,
            if_neg (fun hc => hc.2 hsize)]
          rfl
        · have hroot2 : (MW.withBuffers st (ainsert st.buffers
              (keyOrUndefined (addBufferKey M (tp ++ "/" ++ name))) content)).rootDir
              = .mounts M := hroot
          rw [if_neg (by simp [hmine]), if_neg hsize,
            addBuffer_mounts st M (tp ++ "/" ++ name) content hroot,
            ih _ M tp u hroot2, if_pos ⟨hmine, hsize⟩]
          rfl
      · rw [if_pos hmine, ih st M tp u hroot, if_neg (fun hc => hmine hc.1)]
        rfl
  | dirEntry name sub rest ihs ihr =>
      intro st M tp u hroot
      simp only [MW.search, collectFiles]
      have hroot2 : (MW.withBuffers st (ainsertList st.buffers
          (collectFiles st.mimes st.bufferingMaxSize M (tp ++ "/" ++ name) sub))).rootDir
          = .mounts M := hroot
      rw [ihs st M (tp ++ "/" ++ name) u hroot, ihr _ M tp u hroot2]
      simp only [ainsertList, MW.withBuffers, List.foldl_append]

theorem alookup_ainsertList_not_mem (es : List (String × String)) :
    ∀ (bs : List (String × String)) (k : String),
    (∀ e ∈ es, e.1 ≠ k) → alookup (ainsertList bs es) k = alookup bs k := by
  induction es with
  | nil => intro bs k _; rfl
  | cons e rest ih =>
      intro bs k hne
      show alookup (ainsertList (ainsert bs e.1 e.2) rest) k = alookup bs k
      rw [ih _ k (fun x hx => hne x (List.mem_cons_of_mem _ hx))]
      exact alookup_ainsert_ne bs e.1 k e.2
        (Ne.symm (hne e (List.mem_cons_self e rest)))

theorem alookup_ainsertList_mem (es : List (String × String)) :
    ∀ (bs : List (String × String)) (k c : String),
    (k, c) ∈ es → (∀ e ∈ es, e.1 = k → e.2 = c) →
    alookup (ainsertList bs es) k = some c := by
  induction es with
  | nil => intro bs k c hmem _; cases hmem
  | cons e rest ih =>
      intro bs k c hmem hall
      show alookup (ainsertList (ainsert bs e.1 e.2) rest) k = some c
      by_cases hrest : (k, c) ∈ rest
      · exact ih _ k c hrest (fun x hx => hall x (List.mem_cons_of_mem _ hx))
      · have he : e = (k, c) := by
          rcases List.mem_cons.mp hmem with h | h
          · exact h.symm
          · exact absurd h hrest
        subst he
        have hnone : ∀ x ∈ rest, x.1 ≠ k := by
          rintro ⟨x1, x2⟩ hx hxk
          dsimp at hxk
          subst hxk
          have hc2 : x2 = c := hall (x1, x2) (List.mem_cons_of_mem _ hx) rfl
          subst hc2
          exact hrest hx
        rw [alookup_ainsertList_not_mem rest _ k hnone]
        exact alookup_ainsert_self bs k c

theorem collectFiles_eq_filterMap (mimes : List (String × String)) (maxSize : Nat)
    (M : List (String × String)) (t : FTree) : ∀ (tp : String),
    collectFiles mimes maxSize M tp t
      = (allFiles tp t).filterMap (fun e =>
          if hasMineTable mimes e.1 ∧ ¬ strLen e.2.2 > maxSize
          then some (keyOrUndefined (addBufferKey M e.2.1), e.2.2) else none) := by
  induction t with
  | leaf => intro tp; rfl
  | fileEntry name content rest ih =>
      intro tp
      by_cases hcond : hasMineTable mimes name ∧ ¬ strLen content > maxSize
      · simp only [collectFiles, allFiles, List.filterMap_cons, if_pos hcond, ih tp]
        rfl
      · simp only [collectFiles, allFiles, List.filterMap_cons, if_neg hcond, ih tp]
        rfl
  | dirEntry name sub rest ihs ihr =>
      intro tp
      simp only [collectFiles, allFiles, List.filterMap_append, ihs, ihr]

theorem rfLoop_char (f : FS) (baseUrl : String) (idxs : List String)
    (targetPath : String) (mountList : List (String × String)) :
    ∀ dec : Option String,
    rfLoop f baseUrl idxs targetPath mountList dec
      = match firstDirectDec f baseUrl targetPath mountList with
        | some p => some p
        | none =>
            match lastIdxDec f baseUrl idxs targetPath mountList with
            | some q => some q
            | none => dec := by
  induction mountList with
  | nil => intro dec; rfl
  | cons m rest ih =>
      rcases m with ⟨burl, rd⟩
      intro dec
      simp only [rfLoop, firstDirectDec, lastIdxDec]
      by_cases hd : f.existsSync (directPath baseUrl burl rd targetPath) = true
          ∧ f.isFile (directPath baseUrl burl rd targetPath) = true
      · rw [if_pos hd, if_pos hd]
      · rw [if_neg hd, if_neg hd]
        rcases hidx : firstIdxFile f baseUrl burl rd targetPath idxs with _ | q0 <;>
          simp only [ih] <;>
          cases firstDirectDec f baseUrl targetPath rest <;>
          cases lastIdxDec f baseUrl idxs targetPath rest <;>
          rfl

theorem filterMapEntry_inv (mimes : List (String × String)) (maxSize : Nat)
    (M : List (String × String)) (a : String × String × String) (ek ec : String)
    (hga : (if hasMineTable mimes a.1 ∧ ¬ strLen a.2.2 > maxSize
        then some (keyOrUndefined (addBufferKey M a.2.1), a.2.2)
        else none) = some (ek, ec)) :
    hasMineTable mimes a.1 = true ∧ strLen a.2.2 ≤ maxSize ∧
    ek = keyOrUndefined (addBufferKey M a.2.1) ∧ ec = a.2.2 := by
  by_cases hc : hasMineTable mimes a.1 = true ∧ ¬ strLen a.2.2 > maxSize
  · rw [if_pos hc] at hga
    simp only [Option.some.injEq, Prod.mk.injEq] at hga
    refine ⟨hc.1, ?_, hga.1.symm, hga.2.symm⟩
    have := hc.2
    omega
  · rw [if_neg hc] at hga
    cases hga

/-- Claim C1 (code bug): Scenario E fails on the code.  With buffering and
listNavigator enabled, no directory indexes configured, and the BufferStore
holding exactly /docs/a.txt and /docs/b.txt (plus the listing template
sentinel), a listen for "/docs" never writes the directory-listing page: the
URL resolver falls back to the request path itself, which is non-empty, so
the navigator branch (guarded by an empty decision) is unreachable; listen
takes the not-found path, writes nothing, and returns false. -/
theorem c1_scenarioE_listing_never_written :
    MW.listen stC1 fsC1 "2026/10/12 00:00:00" "/docs" res0
      = some (false, stC1, res0) := by
  decide

/-- Claim C2 counterexample: listen can return true with nothing written.
With buffering disabled, listNavigator enabled and notFound false, a request
with empty path reaches the unimplemented non-buffered directory-navigator
branch, which reports success without touching the response. -/
theorem c2_true_without_response_written :
    MW.listen stC2 fsC2 "2026/10/12 00:00:00" "" res0
      = some (true, stC2, res0) := by
  decide

/-- Claim C2 amended: whenever listen returns normally, it returns false
only when notFound is boolean false and the response is untouched; when it
returns true the response has been ended, except in the unimplemented
non-buffered directory-navigator branch (resolved URL empty, listNavigator
enabled, buffering disabled) where the response is returned untouched. -/
theorem c2_amended_return_contract (st : MW) (f : FS) (d req : String)
    (r : Res) (b : Bool) (st' : MW) (r' : Res)
    (h : MW.listen st f d req r = some (b, st', r')) :
    (b = false → st.notFound = .flag false ∧ r' = r) ∧
    (b = true → r'.ended = true ∨
      (r' = r ∧ st.listNavigator = true ∧ st.buffering = false ∧
        (MW.getUrl st f (splitQuery req)).1 = "")) := by
  have hs := listen_shape st f d req r b st' r' h
  exact ⟨hs.2.2.2.1, hs.2.2.2.2⟩

/-- Claim C2 witness: the amended contract applied to the concrete
unimplemented-branch run. -/
theorem c2_amended_return_contract_witness :
    res0.ended = true ∨
      (res0 = res0 ∧ stC2.listNavigator = true ∧ stC2.buffering = false ∧
        (MW.getUrl stC2 fsC2 (splitQuery "")).1 = "") :=
  (c2_amended_return_contract stC2 fsC2 "2026/10/12 00:00:00" "" res0 true stC2
    res0 (by decide)).2 rfl

/-- Claim C3 counterexample: with mounts {"/a": dirA, "/b": dirB}, index
name index.html, no buffering, dirA/x a directory holding index.html (bytes
AAA) and dirB/x a regular file (bytes BBB), loading "/a/x" serves dirB's
bytes: the later mount's direct match overrides the earlier mount's already
accepted index match, refuting first-mount-wins. -/
theorem c3_later_mount_overrides :
    (MW.readFile stC3 fsC3 "/a/x").1 = some ("BBB", none) ∧
    (some (("BBB" : String), (none : Option String))
      ≠ some ("AAA", some "text/html")) := by
  decide

/-- Claim C3 amended: on a buffer miss the Content Loader's decision is the
direct regular-file match of the first mount having one — only a direct hit
stops the mount loop; when no mount matches directly, the decision is the
first index-file match of the last mount having one, so a later mount's
match overrides an earlier mount's index match. -/
theorem c3_amended_decision_order (st : MW) (f : FS) (targetPath : String)
    (hmiss : st.buffering = true →
      (alookup st.buffers targetPath).isSome = false) :
    (MW.readFile st f targetPath).1
      = match (match firstDirectDec f st.url targetPath (normRoot st.rootDir) with
               | some p => some p
               | none => lastIdxDec f st.url st.directoryIndexs targetPath
                   (normRoot st.rootDir)) with
        | none => none
        | some dec =>
            match f.readOpt dec with
            | some content => some (content, MW.getMime st dec)
            | none => none := by
  have hcond : ¬ (st.buffering = true ∧
      (alookup st.buffers targetPath).isSome = true) := by
    rintro ⟨hb, hsome⟩
    rw [hmiss hb] at hsome
    cases hsome
  unfold MW.readFile
  rw [if_neg hcond]
  have e1 : st.normalizeRoot.url = st.url := rfl
  have e2 : st.normalizeRoot.directoryIndexs = st.directoryIndexs := rfl
  have e3 : normRoot st.normalizeRoot.rootDir = normRoot st.rootDir := rfl
  simp only [e1, e2, e3]
  rw [rfLoop_char f st.url st.directoryIndexs targetPath (normRoot st.rootDir) none]
  rcases firstDirectDec f st.url targetPath (normRoot st.rootDir) with _ | p
  · rcases lastIdxDec f st.url st.directoryIndexs targetPath (normRoot st.rootDir)
        with _ | q
    · rfl
    · dsimp only
      rcases f.readOpt q with _ | c <;> rfl
  · dsimp only
    rcases f.readOpt p with _ | c <;> rfl

/-- Claim C3 witness: the amended decision order applied to the concrete
two-mount layout, evaluating to dirB's bytes. -/
theorem c3_amended_decision_order_witness :
    (MW.readFile stC3 fsC3 "/a/x").1 = some ("BBB", none) :=
  (c3_amended_decision_order stC3 fsC3 "/a/x" (by decide)).trans (by decide)

/-- Claim C4 counterexample: with the single mount {"/a": "dirA"}, buffering
disabled, directoryIndexs=["index.html"] and dirA/x/index.html existing on
disk, resolving "/a/x" does not return "/a/x/index.html" — the resolver
falls back to "/a/x" because its disk probe never strips the urlPrefix. -/
theorem c4_resolver_misses_stripped_path :
    (MW.getUrl stC4 fsC4 "/a/x").1 = "/a/x" ∧
    ("/a/x" : String) ≠ "/a/x/index.html" := by
  decide

/-- Claim C4 amended: getUrl's disk probe concatenates the mount directory
with the full candidate, stripping neither the urlPrefix nor the base url:
resolving "/a/x" under mount {"/a": "dirA"} returns "/a/x/index.html"
exactly when the unstripped path dirA/a/x/index.html exists on disk, and
falls back to "/a/x" when only dirA/x/index.html exists. -/
theorem c4_amended_unstripped_probe :
    (MW.getUrl stC4 fsC4un "/a/x").1 = "/a/x/index.html" ∧
    fsC4un.existsSync "dirA/a/x/index.html" = true ∧
    (MW.getUrl stC4 fsC4 "/a/x").1 = "/a/x" ∧
    fsC4.existsSync "dirA/x/index.html" = true ∧
    fsC4.existsSync "dirA/a/x/index.html" = false := by
  decide

/-- Claim C5: Scenario D.  With mounts {"/a": dirA, "/b": dirB} both holding
an x.txt of distinct contents, a request for "/a/x.txt" answers 200 with
dirA's bytes and never dirB's, both when served from the buffer (entries
added through addBuffer) and when read from disk (buffering disabled). -/
theorem c5_mount_isolation (cA cB : String) (hne : cA ≠ cB) :
    ((MW.listen (stC5buf cA cB) (fsC5 cA cB) "d" "/a/x.txt" res0).map
        (fun x => (x.1, x.2.2.writes)) = some (true, [cA]) ∧
      (MW.listen (stC5buf cA cB) (fsC5 cA cB) "d" "/a/x.txt" res0).map
        (fun x => (x.1, x.2.2.writes)) ≠ some (true, [cB])) ∧
    ((MW.listen stC5disk (fsC5 cA cB) "d" "/a/x.txt" res0).map
        (fun x => (x.1, x.2.2.writes)) = some (true, [cA]) ∧
      (MW.listen stC5disk (fsC5 cA cB) "d" "/a/x.txt" res0).map
        (fun x => (x.1, x.2.2.writes)) ≠ some (true, [cB])) := by
  have h1 : (MW.listen (stC5buf cA cB) (fsC5 cA cB) "d" "/a/x.txt" res0).map
      (fun x => (x.1, x.2.2.writes)) = some (true, [cA]) := rfl
  have h2 : (MW.listen stC5disk (fsC5 cA cB) "d" "/a/x.txt" res0).map
      (fun x => (x.1, x.2.2.writes)) = some (true, [cA]) := rfl
  refine ⟨⟨h1, ?_⟩, h2, ?_⟩
  · rw [h1]
    intro hcontra
    exact hne (by simpa using hcontra)
  · rw [h2]
    intro hcontra
    exact hne (by simpa using hcontra)

/-- Claim C5 witness: the buffered case at concrete contents. -/
theorem c5_mount_isolation_witness :
    (MW.listen (stC5buf "AAA" "BBB") (fsC5 "AAA" "BBB") "d" "/a/x.txt" res0).map
      (fun x => (x.1, x.2.2.writes)) = some (true, ["AAA"]) :=
  (c5_mount_isolation "AAA" "BBB" (by decide)).1.1

/-- Claim C6: round-trip.  For every state with buffering enabled and every
file path for which addBuffer's mount scan computes a key (last mount whose
directory is a string prefix, urlPrefix "/" replaced by the empty string,
directory prefix dropped, "//" collapsed), addBuffer followed by readFile on
that key returns the identical content. -/
theorem c6_addBuffer_readFile_roundtrip (st : MW) (f : FS)
    (filePath content k : String)
    (hb : st.buffering = true)
    (hk : addBufferKey (normRoot st.rootDir) filePath = some k) :
    ∃ m, ((MW.addBuffer st filePath content).readFile f k).1
      = some (content, m) := by
  have hstep : MW.addBuffer st filePath content
      = MW.withBuffers st.normalizeRoot (ainsert st.buffers k content) := by
    simp only [MW.addBuffer]
    have hk2 : addBufferKey (normRoot st.normalizeRoot.rootDir) filePath
        = some k := hk
    rw [hk2]
    rfl
  rw [hstep]
  unfold MW.readFile
  have hbuf : (MW.withBuffers st.normalizeRoot
      (ainsert st.buffers k content)).buffering = true := hb
  have hlook : alookup (MW.withBuffers st.normalizeRoot
      (ainsert st.buffers k content)).buffers k = some content :=
    alookup_ainsert_self _ _ _
  rw [if_pos ⟨hbuf, by rw [hlook]; rfl⟩, hlook]
  exact ⟨_, rfl⟩

/-- Claim C6 witness: the round-trip at a concrete path and content. -/
theorem c6_addBuffer_readFile_roundtrip_witness :
    ∃ m, ((MW.addBuffer stW6 "htdocs/a.txt" "AAA").readFile fsW6 "/a.txt").1
      = some ("AAA", m) :=
  c6_addBuffer_readFile_roundtrip stW6 fsW6 "htdocs/a.txt" "AAA" "/a.txt"
    rfl (by decide)

/-- Claim C7: boundary of the buffer scan.  Over any directory tree whose
files have pairwise distinct computed buffer keys, under a mount map M, a
regular file with a recognized extension whose size equals bufferingMaxSize
exactly is stored in the BufferStore under its computed key with its exact
content, while a file one byte larger leaves its key's binding unchanged. -/
theorem c7_search_size_boundary (st : MW) (M : List (String × String))
    (tp u : String) (t : FTree) (name p c : String)
    (hroot : st.rootDir = .mounts M)
    (hdist : (allFiles tp t).Pairwise (fun a b =>
        keyOrUndefined (addBufferKey M a.2.1)
          ≠ keyOrUndefined (addBufferKey M b.2.1)))
    (hmem : (name, p, c) ∈ allFiles tp t)
    (hmime : hasMineTable st.mimes name = true) :
    (strLen c = st.bufferingMaxSize →
      alookup (MW.search st tp u t).buffers (keyOrUndefined (addBufferKey M p))
        = some c) ∧
    (strLen c = st.bufferingMaxSize + 1 →
      alookup (MW.search st tp u t).buffers (keyOrUndefined (addBufferKey M p))
        = alookup st.buffers (keyOrUndefined (addBufferKey M p))) := by
  rw [search_buffers t st M tp u hroot,
    collectFiles_eq_filterMap st.mimes st.bufferingMaxSize M t tp]
  have hsym : Symmetric (fun (a b : String × String × String) =>
      keyOrUndefined (addBufferKey M a.2.1)
        ≠ keyOrUndefined (addBufferKey M b.2.1)) :=
    fun x y hxy hh => hxy hh.symm
  constructor
  · intro hsz
    apply alookup_ainsertList_mem
    · refine List.mem_filterMap.mpr ⟨(name, p, c), hmem, ?_⟩
      have hsz2 : strLen (name, p, c).2.2 = st.bufferingMaxSize := hsz
      rw [if_pos ⟨hmime, by omega⟩]
    · rintro ⟨ek, ec⟩ he hek
      obtain ⟨a, ha, hga⟩ := List.mem_filterMap.mp he
      obtain ⟨hca, hsa, hkeq, hceq⟩ :=
        filterMapEntry_inv st.mimes st.bufferingMaxSize M a ek ec hga
      by_cases hax : a = (name, p, c)
      · subst hax
        exact hceq
      · exfalso
        exact (hdist.forall hsym ha hmem hax) (by rw [← hkeq]; exact hek)
  · intro hsz
    apply alookup_ainsertList_not_mem
    rintro ⟨ek, ec⟩ he hek
    obtain ⟨a, ha, hga⟩ := List.mem_filterMap.mp he
    obtain ⟨hca, hsa, hkeq, hceq⟩ :=
      filterMapEntry_inv st.mimes st.bufferingMaxSize M a ek ec hga
    by_cases hax : a = (name, p, c)
    · subst hax
      have hsa2 : strLen (name, p, c).2.2 ≤ st.bufferingMaxSize := hsa
      have hsz2 : strLen (name, p, c).2.2 = st.bufferingMaxSize + 1 := hsz
      omega
    · exact (hdist.forall hsym ha hmem hax) (by rw [← hkeq]; exact hek)

/-- Claim C7 witness: a directory with a lone ten-byte a.txt under a
ten-byte cap is stored under key /a.txt with its exact content. -/
theorem c7_search_size_boundary_witness :
    alookup (MW.search stW7 "htdocs" "/" treeW7).buffers
      (keyOrUndefined (addBufferKey [("/", "htdocs")] "htdocs/a.txt"))
      = some "1234567890" :=
  (c7_search_size_boundary stW7 [("/", "htdocs")] "htdocs" "/" treeW7
    "a.txt" "htdocs/a.txt" "1234567890" rfl (by simp [allFiles, treeW7])
    (by simp [allFiles, treeW7]) (by decide)).1 rfl

/-- Claim C8 counterexample: addBuffer with a path that no mount directory
prefixes does not leave the BufferStore unchanged — JavaScript coerces the
undefined file name, so a binding is created. -/
theorem c8_unmatched_path_changes_buffers :
    (MW.addBuffer stC8 "elsewhere/x.txt" "CCC").buffers ≠ stC8.buffers := by
  decide

/-- Claim C8 amended: when no mount directory is a string prefix of the
path, addBuffer stores the content under the literal key "undefined"
(JavaScript's string coercion of the undefined fileName); every other key's
binding is untouched, as ainsert on a fresh key only appends. -/
theorem c8_amended_undefined_key (st : MW) (filePath content : String)
    (hk : addBufferKey (normRoot st.rootDir) filePath = none) :
    (MW.addBuffer st filePath content).buffers
      = ainsert st.buffers "undefined" content := by
  simp only [MW.addBuffer]
  have hk2 : addBufferKey (normRoot st.normalizeRoot.rootDir) filePath
      = none := hk
  rw [hk2]
  rfl

/-- Claim C8 witness: the amended statement at the concrete unmatched path. -/
theorem c8_amended_undefined_key_witness :
    (MW.addBuffer stC8 "elsewhere/x.txt" "CCC").buffers
      = ainsert stC8.buffers "undefined" "CCC" :=
  c8_amended_undefined_key stC8 "elsewhere/x.txt" "CCC" (by decide)

/-- Claim C9 counterexample: a 200-writing listen call mutates the
configured headers mapping — content-type is assigned into this.headers, so
the headers after the call differ from the (empty) headers before. -/
theorem c9_headers_mutated_on_200 :
    (MW.listen stC9 fsC9 "d" "/x.txt" res0).map (fun x => x.2.1.headers)
      ≠ some stC9.headers ∧
    (MW.listen stC9 fsC9 "d" "/x.txt" res0).map
      (fun x => (x.1, x.2.2.statusCode)) = some (true, some 200) := by
  decide

/-- Claim C9 amended: listen mutates the long-lived configuration only by
normalising a bare-string rootDir into its single-mount map form and, on
the 200 path, assigning the served mime into the headers mapping under
content-type; every other configuration field is unchanged. -/
theorem c9_amended_config_frame (st : MW) (f : FS) (d req : String) (r : Res)
    (b : Bool) (st' : MW) (r' : Res)
    (h : MW.listen st f d req r = some (b, st', r')) :
    (st'.url = st.url ∧ st'.mimes = st.mimes ∧ st'.buffering = st.buffering ∧
     st'.bufferingMaxSize = st.bufferingMaxSize ∧
     st'.directReading = st.directReading ∧ st'.notFound = st.notFound ∧
     st'.directoryIndexs = st.directoryIndexs ∧
     st'.listNavigator = st.listNavigator ∧ st'.buffers = st.buffers) ∧
    (st'.rootDir = st.rootDir ∨ st'.rootDir = .mounts (normRoot st.rootDir)) ∧
    (st'.headers = st.headers ∨
      ∃ m, st'.headers = ainsert st.headers "content-type" m) := by
  have hs := listen_shape st f d req r b st' r' h
  exact ⟨hs.1, hs.2.1, hs.2.2.1⟩

/-- Claim C9 witness: the frame applied to the concrete 200 run. -/
theorem c9_amended_config_frame_witness :
    ({ stC9 with headers := [("content-type", "text/plain")] } : MW).headers
        = stC9.headers ∨
      ∃ m, ({ stC9 with headers := [("content-type", "text/plain")] } : MW).headers
        = ainsert stC9.headers "content-type" m :=
  (c9_amended_config_frame stC9 fsC9 "d" "/x.txt" res0 true
    { stC9 with headers := [("content-type", "text/plain")] }
    { statusCode := some 200, headersSet := [("content-type", "text/plain")],
      writes := ["AAA"], ended := true } (by decide)).2.2

/-- Claim C10: when notFound is a page path and the page content is
unavailable (sentinel absent under buffering, or the disk read throws), the
error handler writes the literal body "ERROR" and ends the response without
assigning any status code — the response keeps whatever status it had, the
transport default 200 when untouched — and reports true; consequently with
such a configuration listen always returns true when it returns at all. -/
theorem c10_error_fallback (st : MW) (f : FS) (r : Res) (p : String)
    (hnf : st.notFound = .page p)
    (hbuf : st.buffering = true → alookup st.buffers bufferNameNotFound = none)
    (hdisk : st.buffering = false → f.readOpt p = none) :
    MW.error st f r
        = (true, { r with writes := r.writes ++ ["ERROR"], ended := true }) ∧
    (MW.error st f r).2.statusCode = r.statusCode ∧
    (∀ (d req : String) (r0 : Res) (b : Bool) (st' : MW) (r' : Res),
      MW.listen st f d req r0 = some (b, st', r') → b = true) := by
  have hcontent : (if st.buffering = true
      then alookup st.buffers bufferNameNotFound else f.readOpt p) = none := by
    by_cases hb : st.buffering = true
    · rw [if_pos hb]; exact hbuf hb
    · rw [if_neg hb]; exact hdisk (by simpa using hb)
  have herr : MW.error st f r
      = (true, { r with writes := r.writes ++ ["ERROR"], ended := true }) := by
    simp only [MW.error, hnf]
    rw [hcontent]
    rfl
  refine ⟨herr, by rw [herr], ?_⟩
  intro d req r0 b st' r' h
  have hs := listen_shape st f d req r0 b st' r' h
  cases b with
  | true => rfl
  | false =>
      obtain ⟨hnf2, _⟩ := hs.2.2.2.1 rfl
      rw [hnf] at hnf2
      exact NotFoundSetting.noConfusion hnf2

/-- Claim C10 witness: the fallback at the concrete unavailable 404 page. -/
theorem c10_error_fallback_witness :
    MW.error stC10 fsC10 res0
      = (true, { res0 with writes := res0.writes ++ ["ERROR"], ended := true }) :=
  (c10_error_fallback stC10 fsC10 res0 "404.html" rfl
    (fun _ => rfl) (fun _ => rfl)).1
